import Mathlib

/-!
Verification development for the gotel trace/metric storage-and-query engine.

The Go source is embedded shallowly: SQLite tables become Lean lists of rows,
JSON blobs become records, `float64` metric values become rationals, and the
SQL statements issued by the store are translated into executable Lean
functions over those lists.  SQLite transaction isolation is modelled by a
small connection state machine (`Conn`): inserts inside an open transaction
touch only the transaction buffer, and only `commit` publishes it.
Go `strings.Split` / `strings.Join` on a single-character separator are
implemented directly on character lists (`splitOnChar` / `joinWithChar`)
so that all definitions evaluate by kernel reduction.
-/

namespace Gotel

/-! ## Character-list string helpers (Go strings.Split / strings.Join) -/

/-- Go `strings.Split(s, sep)` for a one-character separator. -/
def splitOnChar (sep : Char) : List Char → List (List Char)
  | [] => [[]]
  | c :: rest =>
    match splitOnChar sep rest with
    | [] => [[]]
    | g :: gs => if c = sep then [] :: g :: gs else (c :: g) :: gs

/-- Go `strings.Join(parts, sep)` for a one-character separator. -/
def joinWithChar (sep : Char) : List (List Char) → List Char
  | [] => []
  | [x] => x
  | x :: y :: rest => x ++ sep :: joinWithChar sep (y :: rest)

/-- Dot-separated parts of a string, as strings. -/
def splitDot (s : String) : List String :=
  (splitOnChar '.' s.data).map String.mk

/-- Join strings with dots (Go `strings.Join(parts, ".")`). -/
def joinDot (l : List String) : String :=
  String.mk (joinWithChar '.' (l.map String.data))

/-! ## Metric-name sanitisation (exporter/sqliteexporter/graphite.go, sanitizeMetricName) -/

/-- Characters replaced by an underscore in metric paths
(`metricNameReplacer` in graphite.go); each mapping is one char to `_`. -/
def sanitizeChar (c : Char) : Char :=
  if c = ' ' ∨ c = '/' ∨ c = '\\' ∨ c = ':' ∨ c = '=' ∨ c = ';' ∨
     c = '(' ∨ c = ')' ∨ c = '[' ∨ c = ']' ∨ c = '\x7b' ∨ c = '\x7d' then '_' else c

/-- Go `sanitizeMetricName`: replace every listed character by `_`. -/
def sanitizeMetricName (name : String) : String :=
  String.mk (name.data.map sanitizeChar)

/-! ## Graphite pattern translation (graphite.go, graphiteToLikePattern) -/

/-- Go `graphiteToLikePattern` character loop, on the character list of the
query: pre-existing `%` and `_` get a backslash escape, `*` becomes `%`,
`?` becomes `_`, anything else is copied. -/
def graphiteToLikePattern : List Char → List Char
  | [] => []
  | c :: rest =>
    (if c = '%' ∨ c = '_' then ['\\', c]
     else if c = '*' then ['%']
     else if c = '?' then ['_']
     else [c]) ++ graphiteToLikePattern rest

/-- ASCII lower-casing (used by SQLite's default LIKE comparison and for the
ASCII-relevant part of Go `strings.ToLower` on span-kind names). -/
def asciiLowerChar (c : Char) : Char :=
  if 'A' ≤ c ∧ c ≤ 'Z' then Char.ofNat (c.toNat + 32) else c

/-- ASCII lower-casing of a whole string. -/
def asciiLowerStr (s : String) : String :=
  String.mk (s.data.map asciiLowerChar)

/-- Case-insensitive (ASCII) character comparison of SQLite LIKE. -/
def likeCharEq (a b : Char) : Bool :=
  asciiLowerChar a = asciiLowerChar b

/-- Fuel-indexed worker for `likeMatch`.  Every recursive call strictly
decreases `p.length + s.length`, so fuel `p.length + s.length + 1` is never
exhausted; the fuel only makes the recursion structural so terms reduce. -/
def likeMatchAux : Nat → List Char → List Char → Bool
  | 0, _, _ => false
  | _ + 1, [], [] => true
  | _ + 1, [], _ :: _ => false
  | n + 1, '%' :: ps, [] => likeMatchAux n ps []
  | n + 1, '%' :: ps, c :: cs =>
    likeMatchAux n ps (c :: cs) || likeMatchAux n ('%' :: ps) cs
  | _ + 1, '_' :: _, [] => false
  | n + 1, '_' :: ps, _ :: cs => likeMatchAux n ps cs
  | n + 1, '\\' :: pc :: ps, c :: cs => likeCharEq pc c && likeMatchAux n ps cs
  | _ + 1, '\\' :: _ :: _, [] => false
  | _ + 1, _ :: _, [] => false
  | n + 1, pc :: ps, c :: cs => likeCharEq pc c && likeMatchAux n ps cs

/-- SQLite `LIKE ... ESCAPE '\'` semantics: `%` matches any sequence,
`_` matches one character, a backslash makes the following character
literal, ordinary characters compare ASCII-case-insensitively. -/
def likeMatch (p s : List Char) : Bool :=
  likeMatchAux (p.length + s.length + 1) p s

/-- String-level LIKE with escape, as used by the metrics name filter. -/
def likeMatchStr (p s : String) : Bool :=
  likeMatch p.data s.data

/-! ## aliasByNode (graphite.go) -/

/-- Go `aliasByNode`: split on `.`, pick `parts[i]` per index (negative
indices count from the end, out-of-range skipped via `continue`), join by
`.`; empty selection returns the metric unchanged. -/
def aliasByNode (metric : String) (idxs : List Int) : String :=
  let parts := splitDot metric
  if parts.length = 0 then metric
  else
    let selected := idxs.filterMap (fun idx =>
      let p : Int := if idx < 0 then (parts.length : Int) + idx else idx
      if p < 0 ∨ (parts.length : Int) ≤ p then none
      else parts[p.toNat]?)
    if selected.isEmpty then metric else joinDot selected

/-- The claim's own wording of aliasByNode, written independently of the
source: select `parts[i]` for each index in order, negative indices counting
from the end of the list, skipping indices out of range after adjustment;
join by `.`; empty selection returns the original name. -/
def aliasByNodeSpec (metric : String) (idxs : List Int) : String :=
  let parts := splitDot metric
  let pick : Int → Option String := fun i =>
    let j : Int := if i < 0 then i + parts.length else i
    if h : 0 ≤ j ∧ j.toNat < parts.length then some (parts.get ⟨j.toNat, h.2⟩)
    else none
  let sel := idxs.filterMap pick
  if sel.isEmpty then metric else joinDot sel

/-! ## Metric path construction (exporter, buildPrefix) -/

/-- Go `buildPrefix` (the exporter method): joins the configured metric
root, the optional namespace, and the service and span names with dots. -/
def buildPrefixStr (pfxRoot nsInfix serviceName spanName : String) : String :=
  let parts := [pfxRoot]
  let parts := if nsInfix ≠ "" then parts ++ [nsInfix] else parts
  let parts := parts ++ [serviceName, spanName]
  joinDot parts

/-! ## Segment counting for render-path wildcard tolerance (queryMetricSeries) -/

/-- Number of dot-separated segments, Go `len(strings.Split(s, "."))`. -/
def segCount (s : String) : Nat :=
  (splitDot s).length

/-- Whether a render target contains a Graphite wildcard
(`strings.Contains(pattern, "*") || strings.Contains(pattern, "?")`). -/
def hasWildcard (t : String) : Bool :=
  t.data.any (fun c => c = '*' ∨ c = '?')

/-! ## Association-list helpers (shallow model of Go maps that preserves
first-insertion iteration order) -/

/-- Lookup in an association list. -/
def lookupKeyD {κ β : Type} [DecidableEq κ] (k : κ) : List (κ × β) → Option β
  | [] => none
  | (k1, v) :: rest => if k1 = k then some v else lookupKeyD k rest

/-- Go `m[k] = f(m[k])` with a default for a missing key: update in place
when the key exists, append a new entry otherwise. -/
def updateOrAppend {κ β : Type} [DecidableEq κ] (k : κ) (f : β → β) (dflt : β)
    (l : List (κ × β)) : List (κ × β) :=
  match lookupKeyD k l with
  | some _ => l.map (fun p => if p.1 = k then (p.1, f p.2) else p)
  | none => l ++ [(k, f dflt)]

/-! ## Span data model

The stored span blob is represented as a record; its fields are exactly the
keys `spanToJSON` writes into the JSON object.  JSON numbers are rationals
(Go decodes them as `float64`), timestamps are `Int` nanoseconds. -/

/-- A decoded JSON attribute value (Go `interface{}` after `v.AsRaw()` or
`json.Unmarshal`): string, bool, number, or anything else by its printed
form. -/
inductive AttrValue : Type where
  | str (s : String)
  | boolean (b : Bool)
  | num (q : ℚ)
  | other (printed : String)
deriving DecidableEq

/-- Go `pcommon.Value.Str()`: the string payload, `""` for non-strings. -/
def attrStrGo : AttrValue → String
  | .str s => s
  | _ => ""

/-- A span event as delivered by the receiver. -/
structure OtelEvent : Type where
  name : String
  timestampNano : Int
  attributes : List (String × AttrValue)
deriving DecidableEq

/-- A span link as delivered by the receiver. -/
structure OtelLink : Type where
  traceId : String
  spanId : String
  traceState : String
  attributes : List (String × AttrValue)
deriving DecidableEq

/-- An incoming OTLP span (`ptrace.Span`) with ids already rendered as the
hex strings their Go `String()` methods produce. -/
structure OtelSpan : Type where
  traceId : String
  spanId : String
  parentSpanId : String
  name : String
  kind : String
  startNano : Int
  endNano : Int
  statusCode : Int
  statusMessage : String
  traceState : String
  attributes : List (String × AttrValue)
  events : List OtelEvent
  links : List OtelLink
deriving DecidableEq

/-- The `scope` sub-object of a stored blob (present only when the
instrumentation scope name is non-empty; `version` only when non-empty). -/
structure StoredScope : Type where
  name : String
  version : Option String
deriving DecidableEq

/-- A stored event object inside the blob (`attributes` empty means the key
was not written). -/
structure StoredEvent : Type where
  name : String
  timestampNano : Int
  attributes : List (String × AttrValue)
deriving DecidableEq

/-- A stored link object inside the blob. -/
structure StoredLink : Type where
  traceId : String
  spanId : String
  traceState : Option String
  attributes : List (String × AttrValue)
deriving DecidableEq

/-- The stored span blob: one field per JSON key written by `spanToJSON`.
An empty `resource`/`attributes`/`events`/`links` list models the key being
absent (the Go code only writes them when non-empty). -/
structure StoredSpan : Type where
  traceId : String
  spanId : String
  parentSpanId : String
  serviceName : String
  spanName : String
  kind : String
  startNano : Int
  endNano : Int
  durationMsBlob : ℚ
  statusCode : Int
  statusMessage : String
  traceState : Option String
  resource : List (String × AttrValue)
  scope : Option StoredScope
  attributes : List (String × AttrValue)
  events : List StoredEvent
  links : List StoredLink
deriving DecidableEq

/-- Service-name extraction used by `spanToJSON` and `pushTraces`: resource
attribute `service.name` via `pcommon.Value.Str()`, defaulting to
`"unknown"` when the attribute is absent. -/
def serviceNameResolve (resource : List (String × AttrValue)) : String :=
  match lookupKeyD "service.name" resource with
  | some v => attrStrGo v
  | none => "unknown"

/-- Go `spanToJSON` (exporter): builds the stored blob from a span, its
resource attributes and its instrumentation scope.  The blob `duration_ms`
is the float64 millisecond duration clamped below at 0; start/end times are
stored raw. -/
def spanToJSON (s : OtelSpan) (resource : List (String × AttrValue))
    (scopeName scopeVersion : String) : StoredSpan :=
  let serviceName := serviceNameResolve resource
  let d : ℚ := ((s.endNano - s.startNano : Int) : ℚ) / 1000000
  let d := if d < 0 then 0 else d
  { traceId := s.traceId
    spanId := s.spanId
    parentSpanId := s.parentSpanId
    serviceName := serviceName
    spanName := s.name
    kind := s.kind
    startNano := s.startNano
    endNano := s.endNano
    durationMsBlob := d
    statusCode := s.statusCode
    statusMessage := s.statusMessage
    traceState := if s.traceState ≠ "" then some s.traceState else none
    resource := resource
    scope := if scopeName ≠ "" then
        some ⟨scopeName, if scopeVersion ≠ "" then some scopeVersion else none⟩
      else none
    attributes := s.attributes
    events := s.events.map (fun e => ⟨e.name, e.timestampNano, e.attributes⟩)
    links := s.links.map (fun l =>
      ⟨l.traceId, l.spanId, if l.traceState ≠ "" then some l.traceState else none,
        l.attributes⟩) }

/-- The `duration_ns` virtual generated column of the `spans` table
(initSchema): `json_extract(data, '$.end_time_unix_nano') -
json_extract(data, '$.start_time_unix_nano')`. -/
def durationNs (b : StoredSpan) : Int :=
  b.endNano - b.startNano

/-! ## Tempo OTLP-JSON conversion (toOTLPSpan, mapToOTLPAttributes,
groupSpansAsOTLPResourceSpans) -/

/-- Tempo any-value output: the tagged value object. `intValue` carries the
decimal string the Go code prints. -/
inductive OTLPValue : Type where
  | stringValue (s : String)
  | boolValue (b : Bool)
  | intValue (s : String)
  | doubleValue (q : ℚ)
deriving DecidableEq

/-- Go `toOTLPAnyValue`: strings and bools verbatim; a JSON number that is
whole becomes an `intValue` decimal string, a fractional one a
`doubleValue`; anything else becomes the `stringValue` of its printed
form. -/
def toOTLPAnyValue : AttrValue → OTLPValue
  | .str s => .stringValue s
  | .boolean b => .boolValue b
  | .num q => if q.den = 1 then .intValue (toString q.num) else .doubleValue q
  | .other s => .stringValue s

/-- One converted attribute entry. -/
structure OTLPAttr : Type where
  key : String
  value : OTLPValue
deriving DecidableEq

/-- Go `mapToOTLPAttributes`: convert each entry and sort ascending by
key. -/
def mapToOTLPAttributes (m : List (String × AttrValue)) : List OTLPAttr :=
  List.insertionSort (fun a b => a.key ≤ b.key)
    (m.map (fun p => ⟨p.1, toOTLPAnyValue p.2⟩))

/-- Status-code rendering in `toOTLPSpan` (query path, part_006): 1 is OK,
2 is ERROR, everything else UNSET. -/
def otlpStatusCode (c : Int) : String :=
  if c = 1 then "STATUS_CODE_OK"
  else if c = 2 then "STATUS_CODE_ERROR"
  else "STATUS_CODE_UNSET"

/-- Kind rendering in `toOTLPSpan`: case-insensitive match of the stored
kind string. -/
def otlpKind (kind : String) : String :=
  let k := asciiLowerStr kind
  if k = "internal" then "SPAN_KIND_INTERNAL"
  else if k = "server" then "SPAN_KIND_SERVER"
  else if k = "client" then "SPAN_KIND_CLIENT"
  else if k = "producer" then "SPAN_KIND_PRODUCER"
  else if k = "consumer" then "SPAN_KIND_CONSUMER"
  else "SPAN_KIND_UNSPECIFIED"

/-- Converted status object (`message` present only when non-empty). -/
structure OTLPStatus : Type where
  code : String
  message : Option String
deriving DecidableEq

/-- Converted event (the Go code prints `timeUnixNano` with `%d`; the
number itself is kept here). -/
structure OTLPEvent : Type where
  name : String
  timeUnixNano : Int
  attributes : List OTLPAttr
deriving DecidableEq

/-- A Tempo-shaped span object as produced by `toOTLPSpan` (the Go code
prints the two timestamps with `fmt %v`; the numbers themselves are kept
here).  An empty `events` list models the key being absent. -/
structure OTLPSpan : Type where
  traceId : String
  spanId : String
  name : String
  kind : String
  startTimeUnixNano : Int
  endTimeUnixNano : Int
  attributes : List OTLPAttr
  status : OTLPStatus
  parentSpanId : Option String
  events : List OTLPEvent
deriving DecidableEq

/-- Go `toOTLPSpan` (query path): field-by-field conversion of a stored
blob; `parentSpanId` is omitted when empty or the all-zero 8-byte hex
string. -/
def toOTLPSpan (m : StoredSpan) : OTLPSpan :=
  { traceId := m.traceId
    spanId := m.spanId
    name := m.spanName
    kind := otlpKind m.kind
    startTimeUnixNano := m.startNano
    endTimeUnixNano := m.endNano
    attributes := mapToOTLPAttributes m.attributes
    status := { code := otlpStatusCode m.statusCode
                message := if m.statusMessage ≠ "" then some m.statusMessage else none }
    parentSpanId :=
      if m.parentSpanId ≠ "" ∧ m.parentSpanId ≠ "0000000000000000" then
        some m.parentSpanId
      else none
    events := m.events.map (fun e =>
      ⟨e.name, e.timestampNano, mapToOTLPAttributes e.attributes⟩) }

/-! ## Grouping into the Tempo envelope (groupSpansAsOTLPResourceSpans) -/

/-- One `scopeSpans` element; `scope` is the `{name: …}` object recorded in
the Go `scopeAttrs` map, `none` when the blob had no scope (Go emits a nil
scope there). -/
structure ScopeSpansEntry : Type where
  scope : Option String
  spans : List OTLPSpan
deriving DecidableEq

/-- One `resourceSpans` element. -/
structure ResourceSpansEntry : Type where
  resourceAttributes : List OTLPAttr
  scopeSpans : List ScopeSpansEntry
deriving DecidableEq

/-- Loop accumulator of `groupSpansAsOTLPResourceSpans`: the three Go maps
as insertion-ordered association lists. -/
structure GroupAcc : Type where
  resources : List (String × List (String × List OTLPSpan))
  resourceAttrs : List (String × List OTLPAttr)
  scopeAttrs : List ((String × String) × String)

/-- One iteration of the span loop in `groupSpansAsOTLPResourceSpans`:
derive the service (resource `service.name` string, else the blob's
`service_name`, else `"unknown"`), record resource and scope attribute
objects on first sight, and append the converted span under
`(service, scopeName)`. -/
def groupStep (acc : GroupAcc) (m : StoredSpan) : GroupAcc :=
  let serviceFromRes :=
    if m.resource ≠ [] then
      match lookupKeyD "service.name" m.resource with
      | some (.str s) => s
      | _ => ""
    else ""
  let resourceAttrs :=
    if m.resource ≠ [] ∧ serviceFromRes ≠ "" ∧
        (lookupKeyD serviceFromRes acc.resourceAttrs).isNone then
      acc.resourceAttrs ++ [(serviceFromRes, mapToOTLPAttributes m.resource)]
    else acc.resourceAttrs
  let service1 := if serviceFromRes = "" then m.serviceName else serviceFromRes
  let service := if service1 = "" then "unknown" else service1
  let scopeName := match m.scope with
    | some sc => sc.name
    | none => ""
  let scopeAttrs := match m.scope with
    | some sc =>
      if (lookupKeyD (service, sc.name) acc.scopeAttrs).isNone then
        acc.scopeAttrs ++ [((service, sc.name), sc.name)]
      else acc.scopeAttrs
    | none => acc.scopeAttrs
  let resources := updateOrAppend service
    (fun inner => updateOrAppend scopeName (fun l => l ++ [toOTLPSpan m]) [] inner)
    [] acc.resources
  { resources := resources, resourceAttrs := resourceAttrs, scopeAttrs := scopeAttrs }

/-- Go `groupSpansAsOTLPResourceSpans`: fold the span list through
`groupStep`, then materialise the nested maps into the envelope entries. -/
def groupSpansAsOTLPResourceSpans (spans : List StoredSpan) : List ResourceSpansEntry :=
  let acc := spans.foldl groupStep ⟨[], [], []⟩
  acc.resources.map (fun svcEntry =>
    { resourceAttributes := (lookupKeyD svcEntry.1 acc.resourceAttrs).getD []
      scopeSpans := svcEntry.2.map (fun scEntry =>
        { scope := lookupKeyD (svcEntry.1, scEntry.1) acc.scopeAttrs
          spans := scEntry.2 }) })

/-! ## Store rows and queries (sqlite store, part_012) -/

/-- A stored metric row; `tags` is the JSON object the Go code marshals
into the `tags` TEXT column (Go sorts map keys when marshalling, so the
association list is kept in that sorted order by its producers). -/
structure MetricRecord : Type where
  name : String
  value : ℚ
  timestamp : Int
  tags : List (String × String)
deriving DecidableEq

/-- A row of the `spans` table: the blob plus the `created_at` column
(`DEFAULT strftime('%s','now')`, filled at insert time). -/
structure SpanRow : Type where
  blob : StoredSpan
  createdAt : Int
deriving DecidableEq

/-- The two tables of the store. -/
structure DBState : Type where
  spans : List SpanRow
  metrics : List MetricRecord
deriving DecidableEq

/-- Options of `QueryMetrics`. -/
structure MetricQueryOptions : Type where
  name : String
  namePattern : Bool
  minTime : Int
  maxTime : Int
  limit : Int
deriving DecidableEq

/-- Go `QueryMetrics`: name filter (`LIKE ? ESCAPE '\'` when
`NamePattern`, equality otherwise; skipped for an empty name), optional
time bounds (only applied when positive), `ORDER BY timestamp`, optional
`LIMIT`. -/
def queryMetrics (rows : List MetricRecord) (opts : MetricQueryOptions) :
    List MetricRecord :=
  let f := rows.filter (fun m => decide (
    (opts.name = "" ∨
      (if opts.namePattern then likeMatchStr opts.name m.name = true
       else m.name = opts.name)) ∧
    (opts.minTime ≤ 0 ∨ opts.minTime ≤ m.timestamp) ∧
    (opts.maxTime ≤ 0 ∨ m.timestamp ≤ opts.maxTime)))
  let sorted := List.insertionSort (fun a b => a.timestamp ≤ b.timestamp) f
  if 0 < opts.limit then sorted.take opts.limit.toNat else sorted

/-- Go `QueryTraceByID`: all spans with the given trace id, ordered by
`start_time_unix_nano` ascending. -/
def queryTraceByID (rows : List StoredSpan) (tid : String) : List StoredSpan :=
  List.insertionSort (fun a b => a.startNano ≤ b.startNano)
    (rows.filter (fun r => decide (r.traceId = tid)))

/-- Go `Cleanup`: `cutoff := now − retention`, delete `spans` rows with
`created_at < cutoff` and `metrics` rows with `timestamp < cutoff`, return
the total number of deleted rows. -/
def cleanup (now retention : Int) (st : DBState) : Int × DBState :=
  let cutoff := now - retention
  let keptSpans := st.spans.filter (fun r => decide (¬ r.createdAt < cutoff))
  let keptMetrics := st.metrics.filter (fun m => decide (¬ m.timestamp < cutoff))
  (((st.spans.length - keptSpans.length : Nat) : Int) +
     ((st.metrics.length - keptMetrics.length : Nat) : Int),
   ⟨keptSpans, keptMetrics⟩)

/-! ## Transactional batch insert (InsertData)

SQLite's transaction isolation is modelled by `Conn`: `committed` is what
concurrent readers observe, `txn` the open transaction's shadow state.
Statement execution inside the transaction only changes `txn`; `commitTx`
publishes it atomically; `rollbackTx` discards it.  A failure oracle says
which statement executions return an error (covering I/O errors,
constraint violations and cancellation). -/

/-- Connection state: committed data plus an optional open transaction. -/
structure Conn : Type where
  committed : DBState
  txn : Option DBState
deriving DecidableEq

/-- `BeginTx`: open a transaction seeing the committed state. -/
def beginTx (c : Conn) : Conn :=
  { c with txn := some c.committed }

/-- Span insert inside the transaction (`INSERT INTO spans (data) VALUES
(?)`; `created_at` defaults to the current epoch second `now`). -/
def txInsertSpan (now : Int) (b : StoredSpan) (c : Conn) : Conn :=
  match c.txn with
  | some v => { c with txn := some { v with spans := v.spans ++ [⟨b, now⟩] } }
  | none => c

/-- Metric insert inside the transaction. -/
def txInsertMetric (m : MetricRecord) (c : Conn) : Conn :=
  match c.txn with
  | some v => { c with txn := some { v with metrics := v.metrics ++ [m] } }
  | none => c

/-- `Commit`: atomically publish the transaction. -/
def commitTx (c : Conn) : Conn :=
  match c.txn with
  | some v => ⟨v, none⟩
  | none => c

/-- `Rollback` (also the deferred rollback after a successful commit,
where it is a no-op). -/
def rollbackTx (c : Conn) : Conn :=
  { c with txn := none }

/-- The span-insert loop of `InsertData`; `fail i` decides whether the
i-th `ExecContext` returns an error (upon which Go returns immediately).
Returns success flag, final connection, and the committed state observable
after each executed statement. -/
def insertSpansLoop (now : Int) (fail : Nat → Bool) :
    List StoredSpan → Nat → Conn → Bool × Conn × List DBState
  | [], _, c => (true, c, [])
  | b :: rest, i, c =>
    if fail i then (false, c, [c.committed])
    else
      let c1 := txInsertSpan now b c
      let r := insertSpansLoop now fail rest (i + 1) c1
      (r.1, r.2.1, c1.committed :: r.2.2)

/-- The metric-insert loop of `InsertData`. -/
def insertMetricsLoop (fail : Nat → Bool) :
    List MetricRecord → Nat → Conn → Bool × Conn × List DBState
  | [], _, c => (true, c, [])
  | m :: rest, i, c =>
    if fail i then (false, c, [c.committed])
    else
      let c1 := txInsertMetric m c
      let r := insertMetricsLoop fail rest (i + 1) c1
      (r.1, r.2.1, c1.committed :: r.2.2)

/-- Result of an `InsertData` call: success flag, committed state when the
call returns, and the committed states observable during the call. -/
structure InsertRun : Type where
  ok : Bool
  final : DBState
  observed : List DBState
deriving DecidableEq

/-- Go `InsertData`: begin a transaction, insert every span then every
metric inside it, commit; any statement error returns immediately and the
deferred `tx.Rollback()` discards the transaction (after a successful
commit the deferred rollback is a no-op). -/
def insertData (now : Int) (failS failM : Nat → Bool) (st : DBState)
    (sp : List StoredSpan) (me : List MetricRecord) : InsertRun :=
  let c0 := beginTx ⟨st, none⟩
  match insertSpansLoop now failS sp 0 c0 with
  | (false, cf, tr) => { ok := false, final := (rollbackTx cf).committed, observed := tr }
  | (true, c1, tr1) =>
    match insertMetricsLoop failM me 0 c1 with
    | (false, cf, tr2) =>
      { ok := false, final := (rollbackTx cf).committed, observed := tr1 ++ tr2 }
    | (true, c2, tr2) =>
      let c3 := commitTx c2
      let c4 := rollbackTx c3
      { ok := true, final := c4.committed, observed := tr1 ++ tr2 ++ [c3.committed] }

/-! ## Trace search (SearchTraces) -/

/-- Options of `SearchTraces`. -/
structure TraceSearchOptions : Type where
  serviceName : String
  spanName : String
  minStartTime : Int
  maxStartTime : Int
  limit : Int
deriving DecidableEq

/-- The root test of the window ordering: `parent_span_id IS NULL OR '' OR
'0000000000000000'` (stored blobs always carry the column, so NULL is the
empty string here). -/
def isRootParent (p : String) : Bool :=
  p = "" ∨ p = "0000000000000000"

/-- The CASE expression of the window ordering. -/
def rootFlag (r : StoredSpan) : Int :=
  if isRootParent r.parentSpanId then 0 else 1

/-- Whether `b` sorts strictly before `a` under the window order
`(root-case, start_time_unix_nano)`. -/
def rootBetter (a b : StoredSpan) : Bool :=
  decide (rootFlag b < rootFlag a ∨
    (rootFlag b = rootFlag a ∧ b.startNano < a.startNano))

/-- `FIRST_VALUE … OVER (PARTITION BY trace_id ORDER BY root-case, start)`:
the first row of the group in window order (first in row order among
ties). -/
def rootRep : List StoredSpan → Option StoredSpan
  | [] => none
  | r :: rest => some (rest.foldl (fun best x => if rootBetter best x then x else best) r)

/-- A trace summary row of `SearchTraces`. -/
structure TraceSummary : Type where
  traceId : String
  rootServiceName : String
  rootTraceName : String
  startTimeUnixNano : Int
  durationMs : Int
  spanCount : Nat
  statusCode : Int
deriving DecidableEq

/-- The per-trace aggregation of `SearchTraces`: min start, max end,
count, max status, and the root representative's service and span names. -/
def summarize (t : String) : List StoredSpan → Option TraceSummary
  | [] => none
  | r :: rest =>
    let root := rest.foldl (fun best x => if rootBetter best x then x else best) r
    let startNs := rest.foldl (fun m x => min m x.startNano) r.startNano
    let endNs := rest.foldl (fun m x => max m x.endNano) r.endNano
    let maxStatus := rest.foldl (fun m x => max m x.statusCode) r.statusCode
    let durMs : Int := if startNs < endNs then (endNs - startNs) / 1000000 else 0
    some ⟨t, root.serviceName, root.spanName, startNs, durMs, (r :: rest).length, maxStatus⟩

/-- First-occurrence distinct keys, the iteration order a grouped result
is materialised in (duplicates of an emitted key are filtered from the
recursive result, which keeps the recursion structural). -/
def keyOrder {α : Type} [DecidableEq α] : List α → List α
  | [] => []
  | k :: rest => k :: (keyOrder rest).filter (fun x => decide (x ≠ k))

/-- The outer filter of `SearchTraces` on one row: each requested filter
restricts `trace_id` to traces containing some span satisfying it (the
time bounds combine into one subquery when both are set). -/
def searchRowPasses (rows : List StoredSpan) (opts : TraceSearchOptions)
    (r : StoredSpan) : Bool :=
  decide (
    (opts.serviceName = "" ∨
      ∃ x ∈ rows, x.traceId = r.traceId ∧ x.serviceName = opts.serviceName) ∧
    (opts.spanName = "" ∨
      ∃ x ∈ rows, x.traceId = r.traceId ∧ x.spanName = opts.spanName) ∧
    (if 0 < opts.minStartTime ∧ 0 < opts.maxStartTime then
      ∃ x ∈ rows, x.traceId = r.traceId ∧
        opts.minStartTime ≤ x.startNano ∧ x.startNano ≤ opts.maxStartTime
     else
      (0 < opts.minStartTime →
        ∃ x ∈ rows, x.traceId = r.traceId ∧ opts.minStartTime ≤ x.startNano) ∧
      (0 < opts.maxStartTime →
        ∃ x ∈ rows, x.traceId = r.traceId ∧ x.startNano ≤ opts.maxStartTime)))

/-- Go `SearchTraces`: filter, group by trace id, summarise each group,
order by start descending, apply the limit when positive. -/
def searchTraces (rows : List StoredSpan) (opts : TraceSearchOptions) :
    List TraceSummary :=
  let filtered := rows.filter (searchRowPasses rows opts)
  let tids := keyOrder (filtered.map (fun r => r.traceId))
  let summaries := tids.filterMap (fun t =>
    summarize t (filtered.filter (fun r => decide (r.traceId = t))))
  let sorted := List.insertionSort
    (fun a b => b.startTimeUnixNano ≤ a.startTimeUnixNano) summaries
  if 0 < opts.limit then sorted.take opts.limit.toNat else sorted

/-- The rows of one trace among the rows passing the outer search filters
(the partition a summary row aggregates over). -/
def traceGroup (rows : List StoredSpan) (opts : TraceSearchOptions) (t : String) :
    List StoredSpan :=
  (rows.filter (searchRowPasses rows opts)).filter (fun r => decide (r.traceId = t))

/-! ## Render-path series query (queryMetricSeries) -/

/-- The loop body of `queryMetricSeries`: skip the row (Go `continue`)
when the target had a wildcard and the metric has fewer dot segments than
the target, otherwise append the `[value, timestamp]` pair to the series
of the metric's name. -/
def seriesStep (np : Bool) (expected : Nat)
    (grouped : List (String × List (ℚ × Int))) (m : MetricRecord) :
    List (String × List (ℚ × Int)) :=
  if np && decide (segCount m.name < expected) then grouped
  else updateOrAppend m.name (fun l => l ++ [(m.value, m.timestamp)]) [] grouped

/-- Go `queryMetricSeries`: wildcard targets are translated to LIKE
patterns; among the returned rows, when the target has a wildcard only
metrics with at least as many dot segments as the target are kept; rows
are grouped by metric name into series of `[value, timestamp]` points. -/
def queryMetricSeries (target : String) (rows : List MetricRecord) :
    List (String × List (ℚ × Int)) :=
  let namePattern := hasWildcard target
  let expected := segCount target
  let pattern := if namePattern then String.mk (graphiteToLikePattern target.data)
    else target
  let ms := queryMetrics rows ⟨pattern, namePattern, 0, 0, 0⟩
  ms.foldl (seriesStep namePattern expected) []

/-! ## Tempo get-trace handler (handleGetTrace) -/

/-- The JSON envelope of a successful get-trace response; the v2 endpoint
additionally nests the same pair under a `trace` key. -/
structure TraceEnvelope : Type where
  resourceSpans : List ResourceSpansEntry
  batches : List ResourceSpansEntry
  trace : Option (List ResourceSpansEntry × List ResourceSpansEntry)
deriving DecidableEq

/-- An HTTP response of the get-trace handler. -/
structure GetTraceResponse : Type where
  status : Nat
  envelope : Option TraceEnvelope
deriving DecidableEq

/-- Go `handleGetTrace`: empty id is a 400; otherwise the spans of the
trace are fetched and regrouped, and the envelope is returned with status
200 under both `resourceSpans` and `batches` (plus `trace` on v2) — also
when no span matches. -/
def handleGetTrace (rows : List StoredSpan) (traceID : String) (isV2 : Bool) :
    GetTraceResponse :=
  if traceID = "" then { status := 400, envelope := none }
  else
    let spans := queryTraceByID rows traceID
    let rs := groupSpansAsOTLPResourceSpans spans
    { status := 200
      envelope := some { resourceSpans := rs, batches := rs,
                         trace := if isV2 then some (rs, rs) else none } }

/-! ## Ingest-side metric aggregation (pushTraces) -/

/-- One `spanAggregation` of `pushTraces`. -/
structure SpanAgg : Type where
  count : Nat
  totalDuration : ℚ
  errorCount : Nat
  rawSpanName : String
deriving DecidableEq

/-- Per-span duration in float64 milliseconds, clamped below at 0
(`duration := …/1e6; if duration < 0 { duration = 0 }`). -/
def durationMsClamped (s : OtelSpan) : ℚ :=
  let d : ℚ := ((s.endNano - s.startNano : Int) : ℚ) / 1000000
  if d < 0 then 0 else d

/-- The updates the loop body applies to an aggregator for one span:
count++, error-count++ iff status code 2, duration accumulated. -/
def applySpanAgg (s : OtelSpan) (a : SpanAgg) : SpanAgg :=
  { count := a.count + 1
    totalDuration := a.totalDuration + durationMsClamped s
    errorCount := a.errorCount + (if s.statusCode = 2 then 1 else 0)
    rawSpanName := a.rawSpanName }

/-- The aggregation key: the sanitised span name. -/
def sanKey (s : OtelSpan) : String :=
  sanitizeMetricName s.name

/-- One iteration of the aggregation loop: find or create the aggregator
keyed by the sanitised span name (created carrying the raw span name) and
apply the span to it. -/
def aggStep (aggs : List (String × SpanAgg)) (s : OtelSpan) :
    List (String × SpanAgg) :=
  let k := sanKey s
  match lookupKeyD k aggs with
  | some _ => aggs.map (fun p => if p.1 = k then (p.1, applySpanAgg s p.2) else p)
  | none => aggs ++ [(k, applySpanAgg s ⟨0, 0, 0, s.name⟩)]

/-- The `spanAggs` map after processing a scope group's spans. -/
def aggregateSpans (spans : List OtelSpan) : List (String × SpanAgg) :=
  spans.foldl aggStep []

/-- The metric-generation loop of `pushTraces`: per aggregator, a
`span_count` point, a `duration_ms` average point when count > 0, and an
`error_count` point when errors > 0, all tagged with the raw service and
span names. -/
def emitAggMetrics (pfxRoot nsInfix serviceNameMetric serviceRaw : String)
    (ts : Int) (aggs : List (String × SpanAgg)) : List MetricRecord :=
  aggs.flatMap (fun p =>
    let pfx := buildPrefixStr pfxRoot nsInfix serviceNameMetric p.1
    let tags := [("service", serviceRaw), ("span", p.2.rawSpanName)]
    [⟨pfx ++ ".span_count", (p.2.count : ℚ), ts, tags⟩] ++
    (if 0 < p.2.count then
      [⟨pfx ++ ".duration_ms", p.2.totalDuration / (p.2.count : ℚ), ts, tags⟩]
     else []) ++
    (if 0 < p.2.errorCount then
      [⟨pfx ++ ".error_count", (p.2.errorCount : ℚ), ts, tags⟩]
     else []))

/-- The metric points one scope group contributes in `pushTraces`. -/
def scopeMetrics (pfxRoot nsInfix serviceRaw : String) (ts : Int)
    (spans : List OtelSpan) : List MetricRecord :=
  emitAggMetrics pfxRoot nsInfix (sanitizeMetricName serviceRaw) serviceRaw ts
    (aggregateSpans spans)

/-- A scope group of the incoming batch. -/
structure ScopeGroup : Type where
  scopeName : String
  scopeVersion : String
  spans : List OtelSpan
deriving DecidableEq

/-- A resource group of the incoming batch. -/
structure ResourceGroup : Type where
  resource : List (String × AttrValue)
  scopes : List ScopeGroup
deriving DecidableEq

/-- Exporter configuration bits used by `pushTraces`. -/
structure ExporterConfig : Type where
  pfxRoot : String
  nsInfix : String
  storeTraces : Bool
  sendMetrics : Bool
deriving DecidableEq

/-- The metric rows a whole pushed batch produces (the metric half of
`pushTraces` before the `InsertData` call). -/
def pushBatchMetrics (cfg : ExporterConfig) (ts : Int)
    (batch : List ResourceGroup) : List MetricRecord :=
  batch.flatMap (fun rg =>
    let serviceRaw := serviceNameResolve rg.resource
    rg.scopes.flatMap (fun sg =>
      if cfg.sendMetrics then
        scopeMetrics cfg.pfxRoot cfg.nsInfix serviceRaw ts sg.spans
      else []))

/-! ## Claim-side (spec-worded) definitions -/

/-- Lexicographic at-most between spans under the window key
`(root-case, start_time_unix_nano)`; the claim's ranking relation. -/
def rootKeyLe (r x : StoredSpan) : Prop :=
  rootFlag r < rootFlag x ∨ (rootFlag r = rootFlag x ∧ r.startNano ≤ x.startNano)

/-- The metric points the spec says one scope group yields, written from
the claim's wording: for each distinct sanitised span name, a
`span_count` point equal to the group size, a `duration_ms` point (only
when count > 0) equal to the sum of `max(0, end − start)` milliseconds
over the group divided by the count, and an `error_count` point (only
when positive) equal to the number of status-2 spans; names use the
sanitised service and span names, tags the raw ones (the raw span name is
the first group member's). -/
def scopeMetricsSpec (pfxRoot nsInfix serviceRaw : String) (ts : Int)
    (spans : List OtelSpan) : List MetricRecord :=
  (keyOrder (spans.map sanKey)).flatMap (fun k =>
    match spans.filter (fun s => decide (sanKey s = k)) with
    | [] => []
    | s0 :: rest =>
      let g := s0 :: rest
      let cnt := g.length
      let errs := (g.filter (fun s => decide (s.statusCode = 2))).length
      let dur : ℚ := (g.map (fun s =>
        max 0 (((s.endNano - s.startNano : Int) : ℚ) / 1000000))).sum
      let pfx := buildPrefixStr pfxRoot nsInfix (sanitizeMetricName serviceRaw) k
      let tags := [("service", serviceRaw), ("span", s0.name)]
      [⟨pfx ++ ".span_count", (cnt : ℚ), ts, tags⟩] ++
      (if 0 < cnt then [⟨pfx ++ ".duration_ms", dur / (cnt : ℚ), ts, tags⟩] else []) ++
      (if 0 < errs then [⟨pfx ++ ".error_count", (errs : ℚ), ts, tags⟩] else []))

/-- Spec-worded batch-level metric emission: per resource group and scope
group, the points of `scopeMetricsSpec` (nothing when metric emission is
disabled). -/
def pushBatchMetricsSpec (cfg : ExporterConfig) (ts : Int)
    (batch : List ResourceGroup) : List MetricRecord :=
  if cfg.sendMetrics then
    batch.flatMap (fun rg =>
      rg.scopes.flatMap (fun sg =>
        scopeMetricsSpec cfg.pfxRoot cfg.nsInfix (serviceNameResolve rg.resource)
          ts sg.spans))
  else []

/-- The aggregator state one key ends with: the fold of `applySpanAgg`
over the spans of the group, started from the zero aggregator carrying the
first group member's raw name (dummy zero value for an empty group, which
never occurs for keys actually present). -/
def groupStats (k : String) (l : List OtelSpan) : SpanAgg :=
  match l.filter (fun s => decide (sanKey s = k)) with
  | [] => ⟨0, 0, 0, ""⟩
  | s0 :: rest =>
    rest.foldl (fun a s => applySpanAgg s a) (applySpanAgg s0 ⟨0, 0, 0, s0.name⟩)

/-- Closed form of the aggregation map: one entry per distinct sanitised
span name in first-occurrence order. -/
def aggClosed (l : List OtelSpan) : List (String × SpanAgg) :=
  (keyOrder (l.map sanKey)).map (fun k => (k, groupStats k l))

/-- The claim-side per-character translation of `graphiteToLikePattern`:
`*` to `%`, `?` to `_`, a backslash before a pre-existing `%` or `_`,
everything else verbatim. -/
def graphiteCharSpec (c : Char) : List Char :=
  if c = '%' ∨ c = '_' then ['\\', c]
  else if c = '*' then ['%']
  else if c = '?' then ['_']
  else [c]

/-! ## Concrete example data used by witnesses and counterexamples -/

/-- A root span of trace `t1`: empty parent, start 10. -/
def exSpanRoot : StoredSpan :=
  { traceId := "t1", spanId := "r", parentSpanId := "", serviceName := "svcR",
    spanName := "R-op", kind := "server", startNano := 10, endNano := 20,
    durationMsBlob := 0, statusCode := 0, statusMessage := "", traceState := none,
    resource := [], scope := none, attributes := [], events := [], links := [] }

/-- A child of `exSpanRoot` that starts earlier (start 5) and has an error
status. -/
def exSpanChild : StoredSpan :=
  { exSpanRoot with
    spanId := "a"
    parentSpanId := "r"
    spanName := "A-op"
    startNano := 5
    endNano := 8
    statusCode := 2 }

/-- Search options with no filters and limit 20 (the handler default). -/
def exSearchOpts : TraceSearchOptions :=
  { serviceName := "", spanName := "", minStartTime := 0, maxStartTime := 0,
    limit := 20 }

/-- An incoming span whose end time precedes its start time. -/
def exNegSpan : OtelSpan :=
  { traceId := "t", spanId := "s", parentSpanId := "", name := "neg-op",
    kind := "server", startNano := 100, endNano := 50, statusCode := 0,
    statusMessage := "", traceState := "", attributes := [], events := [],
    links := [] }

/-- A stored metric row named `a_b.c`. -/
def exMetricRow : MetricRecord :=
  { name := "a_b.c", value := 1, timestamp := 3, tags := [] }

/-- A stored metric row whose operation has an extra dot segment. -/
def exMetricDeep : MetricRecord :=
  { name := "otel.svc.op.sub.span_count", value := 1, timestamp := 3, tags := [] }

/-- Name-pattern query options for a translated Graphite query. -/
def exPatternOpts (q : String) : MetricQueryOptions :=
  { name := String.mk (graphiteToLikePattern q.data), namePattern := true,
    minTime := 0, maxTime := 0, limit := 0 }

/-- The empty store. -/
def exEmptyDB : DBState :=
  { spans := [], metrics := [] }

/-! # Theorems -/

theorem splitOnChar_ne_nil (sep : Char) (l : List Char) : splitOnChar sep l ≠ [] := by
  cases l with
  | nil => simp [splitOnChar]
  | cons c rest =>
    simp only [splitOnChar]
    rcases h : splitOnChar sep rest with _ | ⟨g, gs⟩
    · simp
    · by_cases hc : c = sep <;> simp [hc]

theorem length_filter_add_length_filter_not {α : Type} (p : α → Bool) (l : List α) :
    (l.filter p).length + (l.filter (fun a => !(p a))).length = l.length := by
  induction l with
  | nil => simp
  | cons a l ih =>
    by_cases h : p a = true <;> simp [List.filter_cons, h, ← ih] <;> omega

/-- C7: converting a stored span to the Tempo JSON shape maps status code 1
to STATUS_CODE_OK, 2 to STATUS_CODE_ERROR, and every other value
(including 0) to STATUS_CODE_UNSET. -/
theorem toOTLPSpan_statusCode_mapping :
    ∀ m : StoredSpan,
      ((toOTLPSpan m).status.code = "STATUS_CODE_OK" ↔ m.statusCode = 1) ∧
      ((toOTLPSpan m).status.code = "STATUS_CODE_ERROR" ↔ m.statusCode = 2) ∧
      (m.statusCode ≠ 1 → m.statusCode ≠ 2 →
        (toOTLPSpan m).status.code = "STATUS_CODE_UNSET") := by
  intro m
  by_cases h1 : m.statusCode = 1 <;> by_cases h2 : m.statusCode = 2 <;>
    simp [toOTLPSpan, otlpStatusCode, h1, h2]

/-- C7 witness: a stored span with status code 0 converts to
STATUS_CODE_UNSET. -/
theorem toOTLPSpan_statusCode_mapping_witness :
    (toOTLPSpan exSpanRoot).status.code = "STATUS_CODE_UNSET" :=
  (toOTLPSpan_statusCode_mapping exSpanRoot).2.2 (by decide) (by decide)

/-- C8: aliasByNode splits the metric name on dots, selects the parts at
the given indices in order (negative indices counting from the end),
skips out-of-range indices, joins the selection with dots, and returns the
original name when the selection is empty — the source function agrees
with the claim-worded `aliasByNodeSpec` on every metric name and non-empty
index list. -/
theorem aliasByNode_eq_spec (metric : String) (idxs : List Int)
    (_hne : idxs ≠ []) : aliasByNode metric idxs = aliasByNodeSpec metric idxs := by
  clear _hne
  unfold aliasByNode aliasByNodeSpec
  have hlen : (splitDot metric).length ≠ 0 := by
    intro h
    exact splitOnChar_ne_nil '.' metric.data
      (by simpa [splitDot, List.map_eq_nil_iff] using List.length_eq_zero.mp h)
  rw [if_neg hlen]
  have hmaps : ∀ idx : Int,
      (fun idx : Int =>
        let p : Int := if idx < 0 then ((splitDot metric).length : Int) + idx else idx
        if p < 0 ∨ ((splitDot metric).length : Int) ≤ p then none
        else (splitDot metric)[p.toNat]?) idx =
      (fun i : Int =>
        let j : Int := if i < 0 then i + (splitDot metric).length else i
        if h : 0 ≤ j ∧ j.toNat < (splitDot metric).length then
          some ((splitDot metric).get ⟨j.toNat, h.2⟩)
        else none) idx := by
    intro idx
    simp only []
    have hpj : (if idx < 0 then ((splitDot metric).length : Int) + idx else idx) =
        (if idx < 0 then idx + ((splitDot metric).length : Int) else idx) := by
      by_cases h : idx < 0 <;> simp [h, Int.add_comm]
    rw [hpj]
    set j : Int := if idx < 0 then idx + ((splitDot metric).length : Int) else idx with hj
    by_cases hc : 0 ≤ j ∧ j.toNat < (splitDot metric).length
    · rw [dif_pos hc]
      have hnot : ¬(j < 0 ∨ ((splitDot metric).length : Int) ≤ j) := by omega
      rw [if_neg hnot]
      rw [List.getElem?_eq_getElem hc.2]
      simp
    · rw [dif_neg hc]
      have hor : j < 0 ∨ ((splitDot metric).length : Int) ≤ j := by omega
      rw [if_pos hor]
  simp only [List.filterMap_congr (fun a _ => hmaps a)]

/-- C8 witness: selecting parts 1 and -1 of a 4-part name under both the
source function and the claim wording. -/
theorem aliasByNode_eq_spec_witness :
    aliasByNode "a.b.c.d" [1, -1] = aliasByNodeSpec "a.b.c.d" [1, -1] ∧
    aliasByNode "a.b.c.d" [1, -1] = "b.d" :=
  ⟨aliasByNode_eq_spec "a.b.c.d" [1, -1] (by decide), by decide⟩

/-- C9: cleanup removes exactly the span rows with created_at below the
cutoff and the metric rows with timestamp below it, and with the same
cutoff (fixed retention, unchanged clock, no intervening inserts) a second
cleanup deletes zero rows and leaves the state unchanged. -/
theorem cleanup_retention_monotone :
    ∀ (now retention : Int) (st : DBState),
      (cleanup now retention st).2.spans =
        st.spans.filter (fun r => decide (¬ r.createdAt < now - retention)) ∧
      (cleanup now retention st).2.metrics =
        st.metrics.filter (fun m => decide (¬ m.timestamp < now - retention)) ∧
      (cleanup now retention st).1 =
        ((st.spans.filter (fun r => decide (r.createdAt < now - retention))).length : Int) +
        ((st.metrics.filter (fun m => decide (m.timestamp < now - retention))).length : Int) ∧
      cleanup now retention (cleanup now retention st).2 =
        (0, (cleanup now retention st).2) := by
  intro now retention st
  refine ⟨rfl, rfl, ?_, ?_⟩
  · have h1 := length_filter_add_length_filter_not
      (fun r : SpanRow => decide (¬ r.createdAt < now - retention)) st.spans
    have h2 := length_filter_add_length_filter_not
      (fun m : MetricRecord => decide (¬ m.timestamp < now - retention)) st.metrics
    simp only [decide_not, Bool.not_not] at h1 h2
    simp only [cleanup, decide_not]
    omega
  · simp [cleanup, List.filter_filter, Bool.and_self]

/-- C10: a GET of a trace id for which no spans are stored succeeds with
status 200 and an envelope whose resourceSpans and batches are empty, and
the get-trace handler never returns 404. -/
theorem handleGetTrace_missing_trace :
    (∀ (rows : List StoredSpan) (tid : String) (v2 : Bool),
      tid ≠ "" → (∀ r ∈ rows, r.traceId ≠ tid) →
      handleGetTrace rows tid v2 =
        { status := 200
          envelope := some { resourceSpans := []
                             batches := []
                             trace := if v2 then some ([], []) else none } }) ∧
    (∀ (rows : List StoredSpan) (tid : String) (v2 : Bool),
      (handleGetTrace rows tid v2).status ≠ 404) := by
  constructor
  · intro rows tid v2 htid hnone
    have hfilter : rows.filter (fun r => decide (r.traceId = tid)) = [] := by
      simp only [List.filter_eq_nil_iff, decide_eq_true_eq]
      exact hnone
    simp [handleGetTrace, htid, queryTraceByID, hfilter,
      groupSpansAsOTLPResourceSpans, List.insertionSort]
  · intro rows tid v2
    by_cases htid : tid = "" <;> simp [handleGetTrace, htid]

/-- C10 witness: fetching an unknown trace id from a store holding one
unrelated span yields 200 with an empty envelope, on both v1 and v2. -/
theorem handleGetTrace_missing_trace_witness :
    handleGetTrace [exSpanRoot] "feedfacefeedfacefeedfacefeedface" true =
      { status := 200
        envelope := some { resourceSpans := []
                           batches := []
                           trace := some ([], []) } } := by
  have h := handleGetTrace_missing_trace.1 [exSpanRoot]
    "feedfacefeedfacefeedfacefeedface" true (by decide) (by decide)
  simpa using h

/-- C4 counterexample: the stored row built from a span whose end time
precedes its start time has a negative `duration_ns`, refuting the claim
that the indexed column is clamped to be non-negative for every row. -/
theorem durationNs_negative_counterexample :
    durationNs (spanToJSON exNegSpan [] "" "") = -50 := by decide

/-- C4 (amended): the indexed `duration_ns` column is the deterministic
projection end − start of the blob with no clamping; it is non-negative
exactly on rows whose blob has end at or after start (while the blob's own
`duration_ms` field is clamped at 0). -/
theorem durationNs_projection :
    ∀ (s : OtelSpan) (resource : List (String × AttrValue)) (scn scv : String),
      durationNs (spanToJSON s resource scn scv) = s.endNano - s.startNano ∧
      (s.startNano ≤ s.endNano → 0 ≤ durationNs (spanToJSON s resource scn scv)) := by
  intro s resource scn scv
  refine ⟨rfl, ?_⟩
  intro h
  simp only [durationNs, spanToJSON]
  omega

/-- C4 witness: a span with end after start stores a non-negative
`duration_ns`. -/
theorem durationNs_projection_witness :
    0 ≤ durationNs (spanToJSON { exNegSpan with endNano := 150 } [] "" "") :=
  (durationNs_projection { exNegSpan with endNano := 150 } [] "" "").2 (by decide)

/-- C5: the Graphite-to-LIKE translation maps every character as the claim
describes (star to percent, question mark to underscore, escaping
pre-existing percent and underscore with a backslash), and under the
store's `LIKE ... ESCAPE '\'` name filter the metric `a_b.c` is matched by
the queries `a_b.*` and `a?b.*` but not by `aXb.*`. -/
theorem graphiteToLikePattern_spec :
    (∀ q : List Char, graphiteToLikePattern q = q.flatMap graphiteCharSpec) ∧
    queryMetrics [exMetricRow] (exPatternOpts "a_b.*") = [exMetricRow] ∧
    queryMetrics [exMetricRow] (exPatternOpts "a?b.*") = [exMetricRow] ∧
    queryMetrics [exMetricRow] (exPatternOpts "aXb.*") = [] := by
  refine ⟨?_, by decide, by decide, by decide⟩
  intro q
  induction q with
  | nil => rfl
  | cons c rest ih => simp [graphiteToLikePattern, graphiteCharSpec, ih]

theorem lookupKeyD_isSome_iff {κ β : Type} [DecidableEq κ] (k : κ)
    (l : List (κ × β)) : (lookupKeyD k l).isSome = true ↔ k ∈ l.map Prod.fst := by
  induction l with
  | nil => simp [lookupKeyD]
  | cons p rest ih =>
    by_cases h : p.1 = k
    · simp [lookupKeyD, h]
    · simp only [lookupKeyD, if_neg h, List.map_cons, List.mem_cons, ih]
      exact ⟨Or.inr, fun hk => hk.resolve_left (fun he => h he.symm)⟩

theorem updateOrAppend_keys {κ β : Type} [DecidableEq κ] (k : κ) (f : β → β)
    (dflt : β) (l : List (κ × β)) (k2 : κ) :
    k2 ∈ (updateOrAppend k f dflt l).map Prod.fst ↔
      k2 ∈ l.map Prod.fst ∨ k2 = k := by
  unfold updateOrAppend
  rcases h : lookupKeyD k l with _ | v
  · simp
  · have hk : k ∈ l.map Prod.fst := (lookupKeyD_isSome_iff k l).mp (by simp [h])
    have hkeys : (l.map (fun p => if p.1 = k then (p.1, f p.2) else p)).map Prod.fst =
        l.map Prod.fst := by
      rw [List.map_map]
      apply List.map_congr_left
      intro p _
      by_cases hpk : p.1 = k <;> simp [hpk]
    rw [hkeys]
    exact ⟨Or.inl, fun h2 => h2.elim id (fun he => he ▸ hk)⟩

theorem seriesFold_keys (np : Bool) (expected : Nat) :
    ∀ (ms : List MetricRecord) (acc : List (String × List (ℚ × Int))) (k : String),
      (k ∈ (ms.foldl (seriesStep np expected) acc).map Prod.fst ↔
        k ∈ acc.map Prod.fst ∨
          ∃ m ∈ ms, (np && decide (segCount m.name < expected)) = false ∧
            m.name = k) := by
  intro ms
  induction ms with
  | nil => simp
  | cons m rest ih =>
    intro acc k
    simp only [List.foldl_cons, ih, seriesStep]
    by_cases h : (np && decide (segCount m.name < expected)) = true
    · simp only [if_pos h, List.mem_cons]
      constructor
      · exact fun hc => hc.elim Or.inl (fun ⟨m2, hm2, hc2, hn⟩ =>
          Or.inr ⟨m2, Or.inr hm2, hc2, hn⟩)
      · rintro (hc | ⟨m2, hm2 | hm2, hc2, hn⟩)
        · exact Or.inl hc
        · exact absurd (hm2 ▸ h) (by simp [hc2])
        · exact Or.inr ⟨m2, hm2, hc2, hn⟩
    · have hf : (np && decide (segCount m.name < expected)) = false :=
        Bool.not_eq_true _ ▸ eq_false_of_ne_true h
      simp only [if_neg h, updateOrAppend_keys, List.mem_cons]
      constructor
      · rintro ((hc | he) | ⟨m2, hm2, hc2, hn⟩)
        · exact Or.inl hc
        · exact Or.inr ⟨m, Or.inl rfl, hf, he.symm⟩
        · exact Or.inr ⟨m2, Or.inr hm2, hc2, hn⟩
      · rintro (hc | ⟨m2, hm2 | hm2, hc2, hn⟩)
        · exact Or.inl (Or.inl hc)
        · exact Or.inl (Or.inr (hm2 ▸ hn.symm))
        · exact Or.inr ⟨m2, hm2, hc2, hn⟩

/-- C6: on a wildcard render target, a metric name returned by the store
is kept in the result series exactly when its number of dot segments is at
least the target pattern's; in particular `otel.*.*.span_count` includes
`otel.svc.op.sub.span_count`. -/
theorem queryMetricSeries_segment_tolerance :
    (∀ (target : String) (rows : List MetricRecord),
      hasWildcard target = true →
      ∀ m ∈ queryMetrics rows (exPatternOpts target),
        ((∃ p ∈ queryMetricSeries target rows, p.1 = m.name) ↔
          segCount target ≤ segCount m.name)) ∧
    (queryMetricSeries "otel.*.*.span_count" [exMetricDeep]).map Prod.fst =
      ["otel.svc.op.sub.span_count"] := by
  constructor
  · intro target rows hw m hm
    have hqs : queryMetricSeries target rows =
        (queryMetrics rows (exPatternOpts target)).foldl
          (seriesStep true (segCount target)) [] := by
      simp [queryMetricSeries, exPatternOpts, hw]
    have hkey := seriesFold_keys true (segCount target)
      (queryMetrics rows (exPatternOpts target)) [] m.name
    simp only [Bool.true_and] at hkey
    constructor
    · rintro ⟨p, hp, hpn⟩
      have hmem : m.name ∈ (queryMetricSeries target rows).map Prod.fst :=
        List.mem_map.mpr ⟨p, hp, hpn⟩
      rw [hqs] at hmem
      rw [hkey] at hmem
      rcases hmem with h0 | ⟨m2, _, hc2, hn2⟩
      · simp at h0
      · have h3 : ¬ segCount m2.name < segCount target := by
          simpa using hc2
        rw [hn2] at h3
        omega
    · intro hseg
      have hc : decide (segCount m.name < segCount target) = false := by
        simp only [decide_eq_false_iff_not]
        omega
      have hmem : m.name ∈ (queryMetricSeries target rows).map Prod.fst := by
        rw [hqs, hkey]
        exact Or.inr ⟨m, hm, hc, rfl⟩
      rcases List.mem_map.mp hmem with ⟨p, hp, hpn⟩
      exact ⟨p, hp, hpn⟩
  · decide

/-- C6 witness: the kept-iff-enough-segments equivalence instantiated on
the deep metric and the four-segment wildcard target. -/
theorem queryMetricSeries_segment_tolerance_witness :
    (∃ p ∈ queryMetricSeries "otel.*.*.span_count" [exMetricDeep],
      p.1 = exMetricDeep.name) ↔
    segCount "otel.*.*.span_count" ≤ segCount exMetricDeep.name :=
  queryMetricSeries_segment_tolerance.1 "otel.*.*.span_count" [exMetricDeep]
    (by decide) exMetricDeep (by decide)

theorem txInsertSpan_committed (now : Int) (b : StoredSpan) (c : Conn) :
    (txInsertSpan now b c).committed = c.committed := by
  rcases c with ⟨cm, _ | v⟩ <;> rfl

theorem txInsertMetric_committed (m : MetricRecord) (c : Conn) :
    (txInsertMetric m c).committed = c.committed := by
  rcases c with ⟨cm, _ | v⟩ <;> rfl

theorem insertSpansLoop_committed (now : Int) (fail : Nat → Bool) :
    ∀ (l : List StoredSpan) (i : Nat) (c : Conn),
      (insertSpansLoop now fail l i c).2.1.committed = c.committed ∧
      (∀ d ∈ (insertSpansLoop now fail l i c).2.2, d = c.committed) := by
  intro l
  induction l with
  | nil => intro i c; simp [insertSpansLoop]
  | cons b rest ih =>
    intro i c
    simp only [insertSpansLoop]
    by_cases h : fail i = true
    · simp [h]
    · simp only [if_neg h]
      obtain ⟨h1, h2⟩ := ih (i + 1) (txInsertSpan now b c)
      rw [txInsertSpan_committed] at h1 h2
      refine ⟨h1, ?_⟩
      intro d hd
      rcases List.mem_cons.mp hd with hd | hd
      · rw [hd, txInsertSpan_committed]
      · exact h2 d hd

theorem insertMetricsLoop_committed (fail : Nat → Bool) :
    ∀ (l : List MetricRecord) (i : Nat) (c : Conn),
      (insertMetricsLoop fail l i c).2.1.committed = c.committed ∧
      (∀ d ∈ (insertMetricsLoop fail l i c).2.2, d = c.committed) := by
  intro l
  induction l with
  | nil => intro i c; simp [insertMetricsLoop]
  | cons m rest ih =>
    intro i c
    simp only [insertMetricsLoop]
    by_cases h : fail i = true
    · simp [h]
    · simp only [if_neg h]
      obtain ⟨h1, h2⟩ := ih (i + 1) (txInsertMetric m c)
      rw [txInsertMetric_committed] at h1 h2
      refine ⟨h1, ?_⟩
      intro d hd
      rcases List.mem_cons.mp hd with hd | hd
      · rw [hd, txInsertMetric_committed]
      · exact h2 d hd

theorem insertSpansLoop_ok_txn (now : Int) (fail : Nat → Bool) :
    ∀ (l : List StoredSpan) (i : Nat) (c : Conn) (v : DBState),
      c.txn = some v → (insertSpansLoop now fail l i c).1 = true →
      (insertSpansLoop now fail l i c).2.1.txn =
        some { v with spans := v.spans ++ l.map (fun b => SpanRow.mk b now) } := by
  intro l
  induction l with
  | nil =>
    intro i c v hv _
    simpa [insertSpansLoop] using hv
  | cons b rest ih =>
    intro i c v hv hok
    simp only [insertSpansLoop] at hok ⊢
    by_cases h : fail i = true
    · simp [h] at hok
    · simp only [if_neg h] at hok ⊢
      have hv1 : (txInsertSpan now b c).txn =
          some { v with spans := v.spans ++ [⟨b, now⟩] } := by
        simp [txInsertSpan, hv]
      have := ih (i + 1) (txInsertSpan now b c) _ hv1 hok
      rw [this]
      simp

theorem insertMetricsLoop_ok_txn (fail : Nat → Bool) :
    ∀ (l : List MetricRecord) (i : Nat) (c : Conn) (v : DBState),
      c.txn = some v → (insertMetricsLoop fail l i c).1 = true →
      (insertMetricsLoop fail l i c).2.1.txn =
        some { v with metrics := v.metrics ++ l } := by
  intro l
  induction l with
  | nil =>
    intro i c v hv _
    simpa [insertMetricsLoop] using hv
  | cons m rest ih =>
    intro i c v hv hok
    simp only [insertMetricsLoop] at hok ⊢
    by_cases h : fail i = true
    · simp [h] at hok
    · simp only [if_neg h] at hok ⊢
      have hv1 : (txInsertMetric m c).txn =
          some { v with metrics := v.metrics ++ [m] } := by
        simp [txInsertMetric, hv]
      have := ih (i + 1) (txInsertMetric m c) _ hv1 hok
      rw [this]
      simp

/-- C1: InsertData is atomic — on an error return the spans and metrics
tables are unchanged, on success exactly the whole batch is appended, and
every state observable during the call (the committed state after each
statement) is either the pre-call state or the full post-batch state, so
no reader ever sees a strict subset of the batch. -/
theorem insertData_atomic :
    ∀ (now : Int) (failS failM : Nat → Bool) (st : DBState)
      (sp : List StoredSpan) (me : List MetricRecord),
      ((insertData now failS failM st sp me).ok = false →
        (insertData now failS failM st sp me).final = st) ∧
      ((insertData now failS failM st sp me).ok = true →
        (insertData now failS failM st sp me).final =
          ⟨st.spans ++ sp.map (fun b => SpanRow.mk b now), st.metrics ++ me⟩) ∧
      (∀ d ∈ (insertData now failS failM st sp me).observed,
        d = st ∨
        d = ⟨st.spans ++ sp.map (fun b => SpanRow.mk b now), st.metrics ++ me⟩) := by
  intro now failS failM st sp me
  have hc0 : beginTx ⟨st, none⟩ = ⟨st, some st⟩ := rfl
  obtain ⟨hcom1, hobs1⟩ := insertSpansLoop_committed now failS sp 0 (beginTx ⟨st, none⟩)
  rcases hsl : insertSpansLoop now failS sp 0 (beginTx ⟨st, none⟩) with ⟨ok1, c1, tr1⟩
  rw [hsl] at hcom1 hobs1
  simp only [hc0] at hcom1 hobs1
  cases ok1 with
  | false =>
    have hid : insertData now failS failM st sp me =
        { ok := false, final := (rollbackTx c1).committed, observed := tr1 } := by
      simp only [insertData, hsl]
    rw [hid]
    refine ⟨fun _ => hcom1, fun hcontra => by simp at hcontra, ?_⟩
    intro d hd
    exact Or.inl (hobs1 d hd)
  | true =>
    have htx1 : c1.txn = some ⟨st.spans ++ sp.map (fun b => SpanRow.mk b now), st.metrics⟩ := by
      have := insertSpansLoop_ok_txn now failS sp 0 (beginTx ⟨st, none⟩) st rfl
        (by rw [hsl])
      rw [hsl] at this
      exact this
    obtain ⟨hcom2, hobs2⟩ := insertMetricsLoop_committed failM me 0 c1
    rcases hml : insertMetricsLoop failM me 0 c1 with ⟨ok2, c2, tr2⟩
    rw [hml] at hcom2 hobs2
    rw [hcom1] at hcom2 hobs2
    cases ok2 with
    | false =>
      have hid : insertData now failS failM st sp me =
          { ok := false, final := (rollbackTx c2).committed, observed := tr1 ++ tr2 } := by
        simp only [insertData, hsl, hml]
      rw [hid]
      refine ⟨fun _ => hcom2, fun hcontra => by simp at hcontra, ?_⟩
      intro d hd
      rcases List.mem_append.mp hd with hd | hd
      · exact Or.inl (hobs1 d hd)
      · exact Or.inl (hobs2 d hd)
    | true =>
      have htx2 : c2.txn =
          some ⟨st.spans ++ sp.map (fun b => SpanRow.mk b now), st.metrics ++ me⟩ := by
        have := insertMetricsLoop_ok_txn failM me 0 c1 _ htx1 (by rw [hml])
        rw [hml] at this
        exact this
      have hcommit : commitTx c2 =
          ⟨⟨st.spans ++ sp.map (fun b => SpanRow.mk b now), st.metrics ++ me⟩, none⟩ := by
        simp [commitTx, htx2]
      have hid : insertData now failS failM st sp me =
          { ok := true, final := (rollbackTx (commitTx c2)).committed,
            observed := tr1 ++ tr2 ++ [(commitTx c2).committed] } := by
        simp only [insertData, hsl, hml]
      rw [hid, hcommit]
      refine ⟨fun hcontra => by simp at hcontra, fun _ => rfl, ?_⟩
      intro d hd
      rcases List.mem_append.mp hd with hd | hd
      · rcases List.mem_append.mp hd with hd | hd
        · exact Or.inl (hobs1 d hd)
        · exact Or.inl (hobs2 d hd)
      · rw [List.mem_singleton.mp hd]
        exact Or.inr rfl

/-- C1 witness: a successful insert of one span and one metric appends
both rows, and a failing metric insert leaves the store unchanged. -/
theorem insertData_atomic_witness :
    (insertData 9 (fun _ => false) (fun _ => false) exEmptyDB [exSpanRoot]
        [exMetricRow]).final =
      ⟨[SpanRow.mk exSpanRoot 9], [exMetricRow]⟩ ∧
    (insertData 9 (fun _ => false) (fun i => i = 0) exEmptyDB [exSpanRoot]
        [exMetricRow]).final = exEmptyDB :=
  ⟨by
    have h := (insertData_atomic 9 (fun _ => false) (fun _ => false) exEmptyDB
      [exSpanRoot] [exMetricRow]).2.1 (by decide)
    simpa [exEmptyDB] using h,
   (insertData_atomic 9 (fun _ => false) (fun i => decide (i = 0)) exEmptyDB
      [exSpanRoot] [exMetricRow]).1 (by decide)⟩

theorem rootKeyLe_refl (a : StoredSpan) : rootKeyLe a a := by
  simp [rootKeyLe]

theorem rootKeyLe_trans (a b c : StoredSpan) (h1 : rootKeyLe a b)
    (h2 : rootKeyLe b c) : rootKeyLe a c := by
  simp only [rootKeyLe] at h1 h2 ⊢
  omega

theorem rootKeyLe_of_rootBetter {a x : StoredSpan} (h : rootBetter a x = true) :
    rootKeyLe x a := by
  simp only [rootBetter, decide_eq_true_eq] at h
  simp only [rootKeyLe]
  omega

theorem rootKeyLe_of_not_rootBetter {a x : StoredSpan}
    (h : rootBetter a x = false) : rootKeyLe a x := by
  simp only [rootBetter, decide_eq_false_iff_not] at h
  simp only [rootKeyLe]
  omega

theorem foldl_pick_spec {α : Type} (R : α → α → Prop) (hrefl : ∀ a, R a a)
    (htrans : ∀ a b c, R a b → R b c → R a c) (step : α → α → α)
    (hchoice : ∀ a x, step a x = a ∨ step a x = x)
    (hle1 : ∀ a x, R (step a x) a) (hle2 : ∀ a x, R (step a x) x) :
    ∀ (l : List α) (a : α),
      (l.foldl step a = a ∨ l.foldl step a ∈ l) ∧ R (l.foldl step a) a ∧
      ∀ x ∈ l, R (l.foldl step a) x := by
  intro l
  induction l with
  | nil => intro a; exact ⟨Or.inl rfl, hrefl a, by simp⟩
  | cons x l ih =>
    intro a
    obtain ⟨hmem, hba, hall⟩ := ih (step a x)
    simp only [List.foldl_cons]
    refine ⟨?_, htrans _ _ _ hba (hle1 a x), ?_⟩
    · rcases hchoice a x with hc | hc
      · rcases hmem with hm | hm
        · exact Or.inl (hm.trans hc)
        · exact Or.inr (List.mem_cons_of_mem _ hm)
      · rcases hmem with hm | hm
        · exact Or.inr (by rw [hm, hc]; exact List.mem_cons_self x l)
        · exact Or.inr (List.mem_cons_of_mem _ hm)
    · intro y hy
      rcases List.mem_cons.mp hy with hy | hy
      · rw [hy]
        exact htrans _ _ _ hba (hle2 a x)
      · exact hall y hy

/-- C3: every summary returned by SearchTraces aggregates the rows of its
trace among the filtered rows — the root representative minimises
`(root-case, start time)` so a true root wins and otherwise the earliest
span wins, rootServiceName/rootTraceName come from it, start is the
minimum start, span_count the group size, status the maximum status code —
summaries are ordered by start descending and truncated to the limit; and
for the trace {R (parent empty, start 10), A (parent R, start 5)} the
summary's rootTraceName is R's name. -/
theorem searchTraces_root_representative :
    (∀ (rows : List StoredSpan) (opts : TraceSearchOptions), 0 < opts.limit →
      (searchTraces rows opts).length ≤ opts.limit.toNat ∧
      List.Pairwise (fun a b => b.startTimeUnixNano ≤ a.startTimeUnixNano)
        (searchTraces rows opts) ∧
      ∀ s ∈ searchTraces rows opts,
        ∃ r0, rootRep (traceGroup rows opts s.traceId) = some r0 ∧
          r0 ∈ traceGroup rows opts s.traceId ∧
          (∀ x ∈ traceGroup rows opts s.traceId, rootKeyLe r0 x) ∧
          s.rootTraceName = r0.spanName ∧
          s.rootServiceName = r0.serviceName ∧
          s.startTimeUnixNano ∈
            (traceGroup rows opts s.traceId).map (fun x => x.startNano) ∧
          (∀ x ∈ traceGroup rows opts s.traceId,
            s.startTimeUnixNano ≤ x.startNano) ∧
          s.spanCount = (traceGroup rows opts s.traceId).length ∧
          s.statusCode ∈
            (traceGroup rows opts s.traceId).map (fun x => x.statusCode) ∧
          (∀ x ∈ traceGroup rows opts s.traceId, x.statusCode ≤ s.statusCode)) ∧
    (searchTraces [exSpanChild, exSpanRoot] exSearchOpts).map
      (fun s => s.rootTraceName) = ["R-op"] := by
  constructor
  · intro rows opts hlim
    have hst : searchTraces rows opts =
        (List.insertionSort
          (fun a b : TraceSummary => b.startTimeUnixNano ≤ a.startTimeUnixNano)
          ((keyOrder ((rows.filter (searchRowPasses rows opts)).map
              (fun r => r.traceId))).filterMap
            (fun t => summarize t ((rows.filter (searchRowPasses rows opts)).filter
              (fun r => decide (r.traceId = t)))))).take opts.limit.toNat := by
      simp only [searchTraces]
      rw [if_pos hlim]
    haveI hTot : IsTotal TraceSummary
        (fun a b => b.startTimeUnixNano ≤ a.startTimeUnixNano) :=
      ⟨fun a b => le_total b.startTimeUnixNano a.startTimeUnixNano⟩
    haveI hTr : IsTrans TraceSummary
        (fun a b => b.startTimeUnixNano ≤ a.startTimeUnixNano) :=
      ⟨fun a b c hab hbc => le_trans hbc hab⟩
    refine ⟨?_, ?_, ?_⟩
    · rw [hst]
      simp [List.length_take]
    · rw [hst]
      exact List.Pairwise.sublist (List.take_sublist _ _)
        (List.sorted_insertionSort _ _)
    · intro s hs
      rw [hst] at hs
      have hs1 := (List.take_sublist _ _).subset hs
      have hs2 := (List.perm_insertionSort _ _).subset hs1
      obtain ⟨t, ht, hsum⟩ := List.mem_filterMap.mp hs2
      rcases hg : (rows.filter (searchRowPasses rows opts)).filter
          (fun r => decide (r.traceId = t)) with _ | ⟨r, rest⟩
      · rw [hg] at hsum
        simp [summarize] at hsum
      · rw [hg] at hsum
        simp only [summarize, Option.some.injEq] at hsum
        have hgrp : traceGroup rows opts t = r :: rest := by
          unfold traceGroup
          exact hg
        have htid : s.traceId = t := by rw [← hsum]
        rw [htid, hgrp]
        have hpick := foldl_pick_spec rootKeyLe rootKeyLe_refl rootKeyLe_trans
          (fun best x => if rootBetter best x then x else best)
          (fun a x => by
            by_cases h : rootBetter a x = true <;> simp [h])
          (fun a x => by
            show rootKeyLe (if rootBetter a x = true then x else a) a
            by_cases h : rootBetter a x = true
            · rw [if_pos h]
              exact rootKeyLe_of_rootBetter h
            · rw [if_neg h]
              exact rootKeyLe_refl a)
          (fun a x => by
            show rootKeyLe (if rootBetter a x = true then x else a) x
            by_cases h : rootBetter a x = true
            · rw [if_pos h]
              exact rootKeyLe_refl x
            · rw [if_neg h]
              exact rootKeyLe_of_not_rootBetter (Bool.not_eq_true _ ▸ h))
          rest r
        have hmin := foldl_pick_spec (fun a b : Int => a ≤ b) le_refl
          (fun a b c => le_trans) min min_choice min_le_left min_le_right
          (rest.map (fun x => x.startNano)) r.startNano
        rw [List.foldl_map] at hmin
        have hmax := foldl_pick_spec (fun a b : Int => b ≤ a) le_refl
          (fun a b c h1 h2 => le_trans h2 h1) max max_choice le_max_left
          le_max_right (rest.map (fun x => x.statusCode)) r.statusCode
        rw [List.foldl_map] at hmax
        refine ⟨rest.foldl (fun best x => if rootBetter best x then x else best) r,
          rfl, ?_, ?_, by rw [← hsum], by rw [← hsum], ?_, ?_, by rw [← hsum], ?_, ?_⟩
        · rcases hpick.1 with hm | hm
          · rw [hm]
            exact List.mem_cons_self _ _
          · exact List.mem_cons_of_mem _ hm
        · intro x hx
          rcases List.mem_cons.mp hx with hx | hx
          · rw [hx]
            exact hpick.2.1
          · exact hpick.2.2 x hx
        · have hval : s.startTimeUnixNano =
              rest.foldl (fun m x => min m x.startNano) r.startNano := by
            rw [← hsum]
          rw [hval, List.map_cons]
          rcases hmin.1 with hm | hm
          · rw [hm]
            exact List.mem_cons_self _ _
          · exact List.mem_cons_of_mem _ hm
        · intro x hx
          have hval : s.startTimeUnixNano =
              rest.foldl (fun m x => min m x.startNano) r.startNano := by
            rw [← hsum]
          rw [hval]
          rcases List.mem_cons.mp hx with hx | hx
          · rw [hx]
            exact hmin.2.1
          · exact hmin.2.2 x.startNano (List.mem_map_of_mem _ hx)
        · have hval : s.statusCode =
              rest.foldl (fun m x => max m x.statusCode) r.statusCode := by
            rw [← hsum]
          rw [hval, List.map_cons]
          rcases hmax.1 with hm | hm
          · rw [hm]
            exact List.mem_cons_self _ _
          · exact List.mem_cons_of_mem _ hm
        · intro x hx
          have hval : s.statusCode =
              rest.foldl (fun m x => max m x.statusCode) r.statusCode := by
            rw [← hsum]
          rw [hval]
          rcases List.mem_cons.mp hx with hx | hx
          · rw [hx]
            exact hmax.2.1
          · exact hmax.2.2 x.statusCode (List.mem_map_of_mem _ hx)
  · decide

theorem keyOrder_mem {α : Type} [DecidableEq α] (l : List α) (x : α) :
    x ∈ keyOrder l ↔ x ∈ l := by
  induction l with
  | nil => simp [keyOrder]
  | cons k rest ih =>
    simp only [keyOrder, List.mem_cons, List.mem_filter, decide_eq_true_eq, ih]
    constructor
    · rintro (h | ⟨h1, _⟩)
      · exact Or.inl h
      · exact Or.inr h1
    · rintro (h | h)
      · exact Or.inl h
      · by_cases hx : x = k
        · exact Or.inl hx
        · exact Or.inr ⟨h, hx⟩

theorem keyOrder_append_single {α : Type} [DecidableEq α] (xs : List α) (x : α) :
    keyOrder (xs ++ [x]) =
      if x ∈ xs then keyOrder xs else keyOrder xs ++ [x] := by
  induction xs with
  | nil => simp [keyOrder]
  | cons y xs ih =>
    have h1 : keyOrder ((y :: xs) ++ [x]) =
        y :: (keyOrder (xs ++ [x])).filter (fun z => decide (z ≠ y)) := rfl
    have h2 : keyOrder (y :: xs) =
        y :: (keyOrder xs).filter (fun z => decide (z ≠ y)) := rfl
    rw [h1, ih, h2]
    by_cases hx : x ∈ xs
    · rw [if_pos hx, if_pos (List.mem_cons_of_mem y hx)]
    · rw [if_neg hx, List.filter_append]
      by_cases hxy : x = y
      · subst hxy
        rw [if_pos (List.mem_cons_self x xs)]
        simp
      · have hnotin : x ∉ y :: xs := by simp [hxy, hx]
        rw [if_neg hnotin]
        simp [hxy]

theorem lookupKeyD_map_pair {κ β : Type} [DecidableEq κ] (ks : List κ)
    (f : κ → β) (k : κ) :
    lookupKeyD k (ks.map (fun x => (x, f x))) =
      if k ∈ ks then some (f k) else none := by
  induction ks with
  | nil => simp [lookupKeyD]
  | cons y ys ih =>
    simp only [List.map_cons, lookupKeyD]
    by_cases h : y = k
    · subst h
      simp
    · rw [if_neg h, ih]
      by_cases hk : k ∈ ys
      · rw [if_pos hk, if_pos (List.mem_cons_of_mem y hk)]
      · rw [if_neg hk, if_neg (by simp [hk]; exact fun he => h he.symm)]

theorem flatMap_eq_nil_of_forall {α β : Type} (l : List α) (f : α → List β)
    (h : ∀ a ∈ l, f a = []) : l.flatMap f = [] := by
  induction l with
  | nil => rfl
  | cons a l ih =>
    simp [List.flatMap_cons, h a (List.mem_cons_self a l),
      ih (fun b hb => h b (List.mem_cons_of_mem a hb))]

theorem flatMap_congr_mem {α β : Type} (l : List α) (f g : α → List β)
    (h : ∀ a ∈ l, f a = g a) : l.flatMap f = l.flatMap g := by
  induction l with
  | nil => rfl
  | cons a l ih =>
    simp only [List.flatMap_cons, h a (List.mem_cons_self a l),
      ih (fun b hb => h b (List.mem_cons_of_mem a hb))]

theorem foldAgg_count (rest : List OtelSpan) :
    ∀ a : SpanAgg,
      (rest.foldl (fun a s => applySpanAgg s a) a).count = a.count + rest.length := by
  induction rest with
  | nil => intro a; simp
  | cons s rest ih =>
    intro a
    rw [List.foldl_cons, ih]
    simp only [applySpanAgg, List.length_cons]
    omega

theorem foldAgg_err (rest : List OtelSpan) :
    ∀ a : SpanAgg,
      (rest.foldl (fun a s => applySpanAgg s a) a).errorCount =
        a.errorCount + (rest.filter (fun s => decide (s.statusCode = 2))).length := by
  induction rest with
  | nil => intro a; simp
  | cons s rest ih =>
    intro a
    rw [List.foldl_cons, ih]
    simp only [applySpanAgg, List.filter_cons]
    by_cases h : s.statusCode = 2 <;> simp [h] <;> omega

theorem foldAgg_dur (rest : List OtelSpan) :
    ∀ a : SpanAgg,
      (rest.foldl (fun a s => applySpanAgg s a) a).totalDuration =
        a.totalDuration + (rest.map durationMsClamped).sum := by
  induction rest with
  | nil => intro a; simp
  | cons s rest ih =>
    intro a
    rw [List.foldl_cons, ih]
    simp only [applySpanAgg, List.map_cons, List.sum_cons]
    ring

theorem foldAgg_raw (rest : List OtelSpan) :
    ∀ a : SpanAgg,
      (rest.foldl (fun a s => applySpanAgg s a) a).rawSpanName = a.rawSpanName := by
  induction rest with
  | nil => intro a; rfl
  | cons s rest ih =>
    intro a
    rw [List.foldl_cons, ih]
    rfl

theorem durationMsClamped_eq_max (s : OtelSpan) :
    durationMsClamped s =
      max 0 (((s.endNano - s.startNano : Int) : ℚ) / 1000000) := by
  unfold durationMsClamped
  rcases lt_or_le (((s.endNano - s.startNano : Int) : ℚ) / 1000000) 0 with h | h
  · rw [if_pos h, max_eq_left h.le]
  · rw [if_neg (not_lt.mpr h), max_eq_right h]

theorem sanKey_group_ne_nil (k : String) (l : List OtelSpan) :
    k ∈ l.map sanKey ↔ l.filter (fun s => decide (sanKey s = k)) ≠ [] := by
  rw [Ne, List.filter_eq_nil_iff]
  push_neg
  simp only [List.mem_map, decide_eq_true_eq]

theorem groupStats_append_other (k : String) (l : List OtelSpan) (s : OtelSpan)
    (h : sanKey s ≠ k) : groupStats k (l ++ [s]) = groupStats k l := by
  unfold groupStats
  rw [List.filter_append]
  simp [h]

theorem groupStats_append_same (k : String) (l : List OtelSpan) (s : OtelSpan)
    (hk : sanKey s = k) (hne : l.filter (fun x => decide (sanKey x = k)) ≠ []) :
    groupStats k (l ++ [s]) = applySpanAgg s (groupStats k l) := by
  have hfs : List.filter (fun x => decide (sanKey x = k)) [s] = [s] := by
    simp [hk]
  unfold groupStats
  rw [List.filter_append, hfs]
  rcases hg : l.filter (fun x => decide (sanKey x = k)) with _ | ⟨s0, rest⟩
  · exact absurd hg hne
  · show (rest ++ [s]).foldl (fun a s => applySpanAgg s a)
        (applySpanAgg s0 ⟨0, 0, 0, s0.name⟩) =
      applySpanAgg s (rest.foldl (fun a s => applySpanAgg s a)
        (applySpanAgg s0 ⟨0, 0, 0, s0.name⟩))
    rw [List.foldl_append]
    rfl

theorem groupStats_append_new (k : String) (l : List OtelSpan) (s : OtelSpan)
    (hk : sanKey s = k) (hnil : l.filter (fun x => decide (sanKey x = k)) = []) :
    groupStats k (l ++ [s]) = applySpanAgg s ⟨0, 0, 0, s.name⟩ := by
  unfold groupStats
  rw [List.filter_append, hnil]
  simp [hk]

theorem aggStep_eq_update (aggs : List (String × SpanAgg)) (s : OtelSpan)
    (v : SpanAgg) (h : lookupKeyD (sanKey s) aggs = some v) :
    aggStep aggs s =
      aggs.map (fun p => if p.1 = sanKey s then (p.1, applySpanAgg s p.2) else p) := by
  simp [aggStep, h]

theorem aggStep_eq_append (aggs : List (String × SpanAgg)) (s : OtelSpan)
    (h : lookupKeyD (sanKey s) aggs = none) :
    aggStep aggs s = aggs ++ [(sanKey s, applySpanAgg s ⟨0, 0, 0, s.name⟩)] := by
  simp [aggStep, h]

theorem aggregateSpans_closed (l : List OtelSpan) :
    aggregateSpans l = aggClosed l := by
  induction l using List.reverseRecOn with
  | nil => rfl
  | append_singleton l s ih =>
    have h1 : aggregateSpans (l ++ [s]) = aggStep (aggregateSpans l) s := by
      simp [aggregateSpans, List.foldl_append]
    rw [h1, ih]
    have hmapapp : (l ++ [s]).map sanKey = l.map sanKey ++ [sanKey s] := by
      simp
    by_cases hk : sanKey s ∈ l.map sanKey
    · have hlook : lookupKeyD (sanKey s) (aggClosed l) =
          some (groupStats (sanKey s) l) := by
        unfold aggClosed
        rw [lookupKeyD_map_pair, if_pos ((keyOrder_mem _ _).mpr hk)]
      rw [aggStep_eq_update _ _ _ hlook]
      unfold aggClosed
      rw [hmapapp, keyOrder_append_single, if_pos hk, List.map_map]
      apply List.map_congr_left
      intro k2 hk2
      have hk2l : k2 ∈ l.map sanKey := (keyOrder_mem _ _).mp hk2
      simp only [Function.comp]
      by_cases hke : k2 = sanKey s
      · rw [if_pos hke]
        subst hke
        rw [groupStats_append_same _ _ _ rfl
          ((sanKey_group_ne_nil _ _).mp hk2l)]
      · rw [if_neg hke]
        rw [groupStats_append_other _ _ _ (fun he => hke he.symm)]
    · have hlook : lookupKeyD (sanKey s) (aggClosed l) = none := by
        unfold aggClosed
        rw [lookupKeyD_map_pair, if_neg (fun hc => hk ((keyOrder_mem _ _).mp hc))]
      rw [aggStep_eq_append _ _ hlook]
      unfold aggClosed
      rw [hmapapp, keyOrder_append_single, if_neg hk, List.map_append]
      congr 1
      · apply List.map_congr_left
        intro k2 hk2
        have hk2l : k2 ∈ l.map sanKey := (keyOrder_mem _ _).mp hk2
        have hke : sanKey s ≠ k2 := fun he => hk (he ▸ hk2l)
        rw [groupStats_append_other _ _ _ hke]
      · have hnil : l.filter (fun x => decide (sanKey x = sanKey s)) = [] := by
          by_contra hc
          exact hk ((sanKey_group_ne_nil _ _).mpr hc)
        rw [List.map_singleton, groupStats_append_new _ _ _ rfl hnil]

theorem scopeMetrics_eq_spec (pfxRoot nsInfix serviceRaw : String) (ts : Int)
    (spans : List OtelSpan) :
    scopeMetrics pfxRoot nsInfix serviceRaw ts spans =
      scopeMetricsSpec pfxRoot nsInfix serviceRaw ts spans := by
  unfold scopeMetrics scopeMetricsSpec emitAggMetrics
  rw [aggregateSpans_closed, aggClosed, List.flatMap_map]
  apply flatMap_congr_mem
  intro k hk
  have hkl : k ∈ spans.map sanKey := (keyOrder_mem _ _).mp hk
  have hne := (sanKey_group_ne_nil _ _).mp hkl
  rcases hg : spans.filter (fun s => decide (sanKey s = k)) with _ | ⟨s0, rest⟩
  · exact absurd hg hne
  · simp only [Function.comp]
    have hstats : groupStats k spans =
        rest.foldl (fun a s => applySpanAgg s a)
          (applySpanAgg s0 ⟨0, 0, 0, s0.name⟩) := by
      unfold groupStats
      rw [hg]
    have hcnt : (groupStats k spans).count = (s0 :: rest).length := by
      rw [hstats, foldAgg_count]
      simp [applySpanAgg, Nat.add_comm]
    have herr : (groupStats k spans).errorCount =
        ((s0 :: rest).filter (fun s => decide (s.statusCode = 2))).length := by
      rw [hstats, foldAgg_err]
      by_cases h : s0.statusCode = 2 <;>
        simp [applySpanAgg, List.filter_cons, h] <;> omega
    have hdur : (groupStats k spans).totalDuration =
        ((s0 :: rest).map (fun s =>
          max 0 (((s.endNano - s.startNano : Int) : ℚ) / 1000000))).sum := by
      rw [hstats, foldAgg_dur]
      have hmc : ∀ g : List OtelSpan, g.map durationMsClamped =
          g.map (fun s => max 0 (((s.endNano - s.startNano : Int) : ℚ) / 1000000)) :=
        fun g => List.map_congr_left (fun s _ => durationMsClamped_eq_max s)
      rw [← hmc]
      simp [applySpanAgg, durationMsClamped_eq_max s0]
    have hraw : (groupStats k spans).rawSpanName = s0.name := by
      rw [hstats, foldAgg_raw]
      rfl
    rw [hcnt, herr, hdur, hraw]

/-- C2: for every scope group of a pushed batch and every distinct
sanitised span name in it, pushTraces emits exactly one span_count point
equal to the number of such spans, a duration_ms point (when count > 0)
equal to the sum of max(0, end − start) milliseconds over those spans
divided by the count, and an error_count point (only when some span has
status code 2) equal to that number; names use the sanitised service and
span names, tags carry the raw service name and the raw span name — the
whole metric half of pushTraces equals the claim-worded
`pushBatchMetricsSpec`. -/
theorem pushTraces_metric_aggregation (cfg : ExporterConfig) (ts : Int)
    (batch : List ResourceGroup) :
    pushBatchMetrics cfg ts batch = pushBatchMetricsSpec cfg ts batch := by
  cases hsm : cfg.sendMetrics with
  | false =>
    have hl : pushBatchMetrics cfg ts batch = [] := by
      unfold pushBatchMetrics
      apply flatMap_eq_nil_of_forall
      intro rg _
      apply flatMap_eq_nil_of_forall
      intro sg _
      rw [hsm]
      rfl
    have hr : pushBatchMetricsSpec cfg ts batch = [] := by
      unfold pushBatchMetricsSpec
      rw [hsm]
      rfl
    rw [hl, hr]
  | true =>
    have hl : pushBatchMetrics cfg ts batch =
        batch.flatMap (fun rg => rg.scopes.flatMap (fun sg =>
          scopeMetrics cfg.pfxRoot cfg.nsInfix (serviceNameResolve rg.resource)
            ts sg.spans)) := by
      unfold pushBatchMetrics
      apply flatMap_congr_mem
      intro rg _
      apply flatMap_congr_mem
      intro sg _
      rw [hsm]
      rfl
    rw [hl]
    unfold pushBatchMetricsSpec
    rw [hsm, if_pos rfl]
    apply flatMap_congr_mem
    intro rg _
    apply flatMap_congr_mem
    intro sg _
    exact scopeMetrics_eq_spec _ _ _ _ _

/-- C3 witness: the general statement instantiated on the two-span trace
{R, A}, limit 20. -/
theorem searchTraces_root_representative_witness :
    (searchTraces [exSpanChild, exSpanRoot] exSearchOpts).length ≤ 20 ∧
    (searchTraces [exSpanChild, exSpanRoot] exSearchOpts).map
      (fun s => s.rootTraceName) = ["R-op"] :=
  ⟨(searchTraces_root_representative.1 [exSpanChild, exSpanRoot] exSearchOpts
      (by decide)).1,
   searchTraces_root_representative.2⟩

end Gotel
